import Mathlib

/-!
Verification development for the awilix-helper indexing engine.

This file gives a shallow embedding of the engine's core:
  * `src/parsers/ast.js` — the syntactic pattern predicates over Babel-style AST nodes;
  * `src/parsers/resolvers.js` — import map construction, module path
    resolution, symbol-origin resolution;
  * `src/providers/definition.js` — registration analysis (`analyzeRegistration`),
    per-file indexing (`indexFile`), workspace index building (`buildIndex`);
  * the diagnostics runner (`diagnosticsRunner`);
  * the cursor-context classifier (`detectAwilixContext`) and the completion
    replacement-range computation.

External collaborators (the Babel parser, the file system, `fast-glob`,
Node's `require.resolve`) are modelled as oracle fields of an `Env`
record; everything else is translated directly from the JavaScript source.
JavaScript `Map`s are modelled as association lists whose `set` replaces an
existing binding in place (preserving insertion order) and appends fresh
bindings at the end, exactly matching `Map` iteration semantics.
-/

set_option autoImplicit false

namespace AwilixHelper

/-- A Babel source location (1-indexed lines, 0-indexed columns). -/
structure Loc where
  startLine : Nat
  startCol : Nat
  endLine : Nat
  endCol : Nat
deriving DecidableEq, Repr

/-- A VS Code style range (0-indexed lines and characters), as produced by
`toRange` in `src/parsers/ast.js`. -/
structure Rng where
  startLine : Nat
  startChar : Nat
  endLine : Nat
  endChar : Nat
deriving DecidableEq, Repr

/-- What a path on disk is: a regular file or a directory. -/
inductive FileKind where
  | file
  | dir
deriving DecidableEq, Repr

/-- Lookup in an association list modelling a JavaScript `Map` (`Map.get`). -/
def mapGet {α : Type} : List (String × α) → String → Option α
  | [], _ => none
  | (k', v) :: rest, k => if k' == k then some v else mapGet rest k

/-- Membership test modelling `Map.has`. -/
def mapHas {α : Type} (m : List (String × α)) (k : String) : Bool :=
  (mapGet m k).isSome

/-- Insertion modelling `Map.set`: replace an existing binding in place
(keeping its position, as JavaScript `Map` does) or append a new one. -/
def mapSet {α : Type} : List (String × α) → String → α → List (String × α)
  | [], k, v => [(k, v)]
  | (k', v') :: rest, k, v =>
    if k' == k then (k, v) :: rest else (k', v') :: mapSet rest k v

/-- Updating the value stored under an existing key in place (modelling
mutation of an array previously obtained from `Map.get`). -/
def mapUpdate {α : Type} : List (String × α) → String → (α → α) → List (String × α)
  | [], _, _ => []
  | (k', v) :: rest, k, f =>
    if k' == k then (k', f v) :: rest else (k', v) :: mapUpdate rest k f

/-- Babel-style AST nodes, restricted to the shapes the indexer matches on.
Every node carries its (optional) source location first; remaining fields
follow the Babel field order. Shapes the engine never inspects are folded
into `OtherNode`, which only keeps the child list for traversal. -/
inductive JsNode where
  | Identifier (loc : Option Loc) (name : String)
  | StringLiteral (loc : Option Loc) (value : String)
  | CallExpression (loc : Option Loc) (callee : JsNode) (args : List JsNode)
  | MemberExpression (loc : Option Loc) (obj : JsNode) (prop : JsNode) (computed : Bool)
  | ObjectExpression (loc : Option Loc) (props : List JsNode)
  | ObjectProperty (loc : Option Loc) (key : JsNode) (value : JsNode)
  | ObjectPattern (loc : Option Loc) (props : List JsNode)
  | ClassDeclaration (loc : Option Loc) (name : String) (body : List JsNode)
  | ClassMethod (loc : Option Loc) (methodKind : String) (params : List JsNode) (body : List JsNode)
  | FunctionDeclaration (loc : Option Loc) (params : List JsNode) (body : List JsNode)
  | FunctionExpression (loc : Option Loc) (params : List JsNode) (body : List JsNode)
  | ArrowFunctionExpression (loc : Option Loc) (params : List JsNode) (body : List JsNode)
  | VariableDeclaration (loc : Option Loc) (decls : List JsNode)
  | VariableDeclarator (loc : Option Loc) (id : JsNode) (init : Option JsNode)
  | ImportDeclaration (loc : Option Loc) (specifiers : List JsNode) (source : String)
  | ImportDefaultSpecifier (loc : Option Loc) (localName : String)
  | ImportSpecifier (loc : Option Loc) (localName : String) (importedName : String)
  | ImportNamespaceSpecifier (loc : Option Loc) (localName : String)
  | Program (loc : Option Loc) (body : List JsNode)
  | ExpressionStatement (loc : Option Loc) (expr : JsNode)
  | OtherNode (loc : Option Loc) (children : List JsNode)
deriving Repr

/-- The location carried by a node (`node.loc` in Babel; `none` for
synthetic nodes). -/
def JsNode.loc : JsNode → Option Loc
  | .Identifier l _ => l
  | .StringLiteral l _ => l
  | .CallExpression l _ _ => l
  | .MemberExpression l _ _ _ => l
  | .ObjectExpression l _ => l
  | .ObjectProperty l _ _ => l
  | .ObjectPattern l _ => l
  | .ClassDeclaration l _ _ => l
  | .ClassMethod l _ _ _ => l
  | .FunctionDeclaration l _ _ => l
  | .FunctionExpression l _ _ => l
  | .ArrowFunctionExpression l _ _ => l
  | .VariableDeclaration l _ => l
  | .VariableDeclarator l _ _ => l
  | .ImportDeclaration l _ _ => l
  | .ImportDefaultSpecifier l _ => l
  | .ImportSpecifier l _ _ => l
  | .ImportNamespaceSpecifier l _ => l
  | .Program l _ => l
  | .ExpressionStatement l _ => l
  | .OtherNode l _ => l

/-- JavaScript's `node.name` property access: defined exactly for
`Identifier` nodes, `undefined` (here `none`) for everything else. -/
def propName : JsNode → Option String
  | .Identifier _ name => some name
  | _ => none

/-- Translation of `isMemberCall` from `src/parsers/ast.js`: the callee is a
non-computed member access whose property is an identifier named
`methodName`. -/
def isMemberCall (callee : JsNode) (methodName : String) : Bool :=
  match callee with
  | .MemberExpression _ _ prop computed =>
    !computed &&
      (match prop with
       | .Identifier _ n => n == methodName
       | _ => false)
  | _ => false

/-- Translation of `isAwilixAsX` from `src/parsers/ast.js`: member access
whose property identifier is `asClass`, `asFunction` or `asValue` (the
`computed` flag is not checked, exactly as in the source). -/
def isAwilixAsX (callee : JsNode) : Bool :=
  match callee with
  | .MemberExpression _ _ prop _ =>
    (match prop with
     | .Identifier _ n => n == "asClass" || n == "asFunction" || n == "asValue"
     | _ => false)
  | _ => false

/-- Translation of `isCradleAccess` from `src/parsers/ast.js`: a member
expression whose object is itself a member access on an identifier property
named `cradle`, and whose own property is an identifier. -/
def isCradleAccess (node : JsNode) : Bool :=
  match node with
  | .MemberExpression _ obj prop _ =>
    (match obj with
     | .MemberExpression _ _ oprop _ =>
       (match oprop with
        | .Identifier _ n => n == "cradle"
        | _ => false)
     | _ => false) &&
    (match prop with
     | .Identifier _ _ => true
     | _ => false)
  | _ => false

/-- Translation of `getPropName` from `src/parsers/ast.js`. -/
def getPropName : JsNode → Option String
  | .Identifier _ name => some name
  | .StringLiteral _ value => some value
  | _ => none

/-- Translation of `toRange` from `src/parsers/ast.js`: convert a Babel
location (1-indexed lines) to a 0-indexed range, `none` when the node has
no location. -/
def toRange (node : JsNode) : Option Rng :=
  match node.loc with
  | none => none
  | some l => some ⟨l.startLine - 1, l.startCol, l.endLine - 1, l.endCol⟩

mutual

/-- All nodes of a subtree in pre-order, modelling a Babel `traverse`
(which fires each visitor on every node of the matched type). Children are
listed in Babel field order. -/
def allNodes : JsNode → List JsNode
  | t@(.Identifier _ _) => [t]
  | t@(.StringLiteral _ _) => [t]
  | t@(.CallExpression _ callee args) => t :: (allNodes callee ++ allNodesList args)
  | t@(.MemberExpression _ obj prop _) => t :: (allNodes obj ++ allNodes prop)
  | t@(.ObjectExpression _ props) => t :: allNodesList props
  | t@(.ObjectProperty _ key value) => t :: (allNodes key ++ allNodes value)
  | t@(.ObjectPattern _ props) => t :: allNodesList props
  | t@(.ClassDeclaration _ _ body) => t :: allNodesList body
  | t@(.ClassMethod _ _ params body) => t :: (allNodesList params ++ allNodesList body)
  | t@(.FunctionDeclaration _ params body) => t :: (allNodesList params ++ allNodesList body)
  | t@(.FunctionExpression _ params body) => t :: (allNodesList params ++ allNodesList body)
  | t@(.ArrowFunctionExpression _ params body) => t :: (allNodesList params ++ allNodesList body)
  | t@(.VariableDeclaration _ decls) => t :: allNodesList decls
  | t@(.VariableDeclarator _ id init) => t :: (allNodes id ++ allNodesOpt init)
  | t@(.ImportDeclaration _ specifiers _) => t :: allNodesList specifiers
  | t@(.ImportDefaultSpecifier _ _) => [t]
  | t@(.ImportSpecifier _ _ _) => [t]
  | t@(.ImportNamespaceSpecifier _ _) => [t]
  | t@(.Program _ body) => t :: allNodesList body
  | t@(.ExpressionStatement _ expr) => t :: allNodes expr
  | t@(.OtherNode _ children) => t :: allNodesList children

/-- Pre-order traversal of a list of sibling nodes. -/
def allNodesList : List JsNode → List JsNode
  | [] => []
  | t :: ts => allNodes t ++ allNodesList ts

/-- Pre-order traversal of an optional child node. -/
def allNodesOpt : Option JsNode → List JsNode
  | none => []
  | some t => allNodes t

end

/-- The external collaborators the engine calls into, modelled as oracles:
`fs` is `fs.existsSync`/`fs.statSync(..).isFile()` (what each absolute path
is on disk, if anything), `hostResolve` is Node's `require.resolve` for
package-style specifiers, `parse` is the Babel parser (`parseJs`, which
throws on malformed input), `readFile` is `fs.readFileSync`, and `glob` is
`fast-glob` (folder path and ignore list to matched files). -/
structure Env where
  fs : String → Option FileKind
  hostResolve : String → String → Option String
  parse : String → Except String JsNode
  readFile : String → Except String String
  glob : String → List String → Except String (List String)

/-- JavaScript `String.prototype.startsWith`, via the character list. -/
def strStartsWith (s p : String) : Bool :=
  p.data.isPrefixOf s.data

/-- JavaScript `String.prototype.endsWith`, via the character list. -/
def strEndsWith (s p : String) : Bool :=
  p.data.reverse.isPrefixOf s.data.reverse

/-- JavaScript `s.substring(0, n)` (one line of text, so UTF-16 units and
characters coincide). -/
def strTake (s : String) (n : Nat) : String :=
  ⟨s.data.take n⟩

/-- JavaScript `s.substring(n)`. -/
def strDrop (s : String) (n : Nat) : String :=
  ⟨s.data.drop n⟩

/-- Whether a path exists on disk (`fs.existsSync`). -/
def existsFS (fs : String → Option FileKind) (p : String) : Bool :=
  (fs p).isSome

/-- Whether a path is a regular file (`fs.statSync(p).isFile()`, only ever
called on existing paths). -/
def isFileFS (fs : String → Option FileKind) (p : String) : Bool :=
  fs p == some FileKind.file

/-- Split an absolute POSIX path into its segments. -/
def splitPath (s : String) : List String :=
  ((s.data.splitOn '/').filter (fun seg => seg ≠ [])).map (fun seg => ⟨seg⟩)

/-- Normalise path segments: drop `.`, let `..` pop the previous segment.
This is the effect of Node's POSIX `path.resolve` on an absolute base. -/
def normSegs (segs : List String) : List String :=
  segs.foldl
    (fun acc seg =>
      if seg = "." then acc
      else if seg = ".." then acc.dropLast
      else acc ++ [seg])
    []

/-- Rebuild an absolute path from segments. -/
def joinSegs (segs : List String) : String :=
  "/" ++ String.intercalate "/" segs

/-- Model of POSIX `path.resolve(fromDir, rel)` for an absolute `fromDir`
and a relative `rel` (the only way the source calls it). -/
def pathResolve (fromDir rel : String) : String :=
  joinSegs (normSegs (splitPath fromDir ++ splitPath rel))

/-- Model of POSIX `path.dirname` for absolute paths. -/
def dirname (p : String) : String :=
  joinSegs ((splitPath p).dropLast)

/-- Model of `path.join(resolved, 'index.js')`. -/
def pathJoin (a b : String) : String :=
  a ++ "/" ++ b

/-- Translation of `resolveModulePath` from `src/parsers/resolvers.js`.
For a relative specifier: if the resolved path exists and is a file it is
returned; if it exists as a directory with an `index.js`, that is returned;
otherwise the path with `.js` appended is tried; otherwise `null`.
Package-style specifiers defer to the host resolver (`require.resolve`). -/
def resolveModulePath (env : Env) (modulePath fromFile : String) : Option String :=
  let fromDir := dirname fromFile
  if strStartsWith modulePath "." then
    let resolved := pathResolve fromDir modulePath
    if existsFS env.fs resolved then
      if isFileFS env.fs resolved then some resolved
      else
        let indexPath := pathJoin resolved "index.js"
        if existsFS env.fs indexPath then some indexPath
        else if existsFS env.fs (resolved ++ ".js") then some (resolved ++ ".js")
        else none
    else if existsFS env.fs (resolved ++ ".js") then some (resolved ++ ".js")
    else none
  else
    env.hostResolve modulePath fromDir

/-- One entry of the import map built by `buildImportMap`:
`{ source, isDefault, imported?, isNamespace? }`. -/
structure ImportInfo where
  source : String
  isDefault : Bool
  imported : Option String
  isNamespace : Bool
deriving DecidableEq, Repr

/-- The bindings a single node contributes to the import map: the
`ImportDeclaration` and `VariableDeclarator` (require-call) visitors of
`buildImportMap` in `src/parsers/resolvers.js`. -/
def importEntries (n : JsNode) : List (String × ImportInfo) :=
  match n with
  | .ImportDeclaration _ specifiers source =>
    specifiers.filterMap (fun spec =>
      match spec with
      | .ImportDefaultSpecifier _ localName =>
        some (localName, ⟨source, true, none, false⟩)
      | .ImportSpecifier _ localName importedName =>
        some (localName, ⟨source, false, some importedName, false⟩)
      | .ImportNamespaceSpecifier _ localName =>
        some (localName, ⟨source, false, none, true⟩)
      | _ => none)
  | .VariableDeclarator _ id init =>
    match init with
    | some (.CallExpression _ (.Identifier _ calleeName) (arg0 :: _)) =>
      if calleeName = "require" then
        match arg0 with
        | .StringLiteral _ source =>
          (match id with
           | .Identifier _ name => [(name, ⟨source, true, none, false⟩)]
           | .ObjectPattern _ props =>
             props.filterMap (fun prop =>
               match prop with
               | .ObjectProperty _ (.Identifier _ keyName) value =>
                 some ((propName value).getD keyName,
                   ⟨source, false, some keyName, false⟩)
               | _ => none)
           | _ => [])
        | _ => []
      else []
    | _ => []
  | _ => []

/-- Translation of `buildImportMap` from `src/parsers/resolvers.js`: one
traversal collecting import/require bindings; a later binding for the same
local name overwrites an earlier one (`Map.set`). The current file path
argument is unused, exactly as in the source. -/
def buildImportMap (ast : JsNode) (_currentFilePath : String) :
    List (String × ImportInfo) :=
  ((allNodes ast).flatMap importEntries).foldl
    (fun m kv => mapSet m kv.1 kv.2) []

/-- Strip the `file://` scheme, modelling `uri.replace('file://', '')` on
URIs that start with the scheme (the only inputs the engine builds). -/
def stripFileScheme (s : String) : String :=
  if strStartsWith s "file://" then strDrop s 7 else s

/-- Result of `resolveSymbolOrigin`. -/
structure Origin where
  fileUri : String
  exportName : Option String
  range : Option Rng
  kind : String
deriving DecidableEq, Repr

/-- Translation of `resolveSymbolOrigin` from `src/parsers/resolvers.js`.
The `symbolNode` can be `null` (modelled as `none`); the `ast` argument is
unused, exactly as in the source. -/
def resolveSymbolOrigin (env : Env) (currentFileUri : String)
    (symbolNode : Option JsNode) (_ast : JsNode)
    (importMap : List (String × ImportInfo)) : Origin :=
  let currentFilePath := stripFileScheme currentFileUri
  match symbolNode with
  | some (.Identifier lid name) =>
    (match mapGet importMap name with
     | some importInfo =>
       (match resolveModulePath env importInfo.source currentFilePath with
        | some resolvedPath =>
          ⟨"file://" ++ resolvedPath, importInfo.imported, none, "unknown"⟩
        | none =>
          ⟨currentFileUri, some name, toRange (.Identifier lid name), "unknown"⟩)
     | none =>
       ⟨currentFileUri, some name, toRange (.Identifier lid name), "unknown"⟩)
  | _ =>
    ⟨currentFileUri, none, symbolNode.bind toRange, "value"⟩

/-- Whether a node is a `CallExpression` (JavaScript's
`node.type === 'CallExpression'`). -/
def isCallExpr : JsNode → Bool
  | .CallExpression _ _ _ => true
  | _ => false

/-- The `kind` the source derives from an `asX` callee:
`asX === 'asClass' ? 'class' : asX === 'asFunction' ? 'function' : 'value'`,
reading `callee.property.name`. -/
def asXKind (callee : JsNode) : String :=
  match callee with
  | .MemberExpression _ _ prop _ =>
    (match propName prop with
     | some "asClass" => "class"
     | some "asFunction" => "function"
     | _ => "value")
  | _ => "value"

/-- The `while (currentNode.type === 'CallExpression')` loop of
`analyzeRegistration` in `src/providers/definition.js`. The state is the
lifetime recorded so far; `kind` stays `'value'` and `symbolNode` stays
`null` unless the loop breaks at an `asX` call. Returns
`(kind, lifetime, symbolNode)` at loop exit. -/
def analyzeRegLoop : JsNode → Option String → String × Option String × Option JsNode
  | .CallExpression _ callee args, lifetime =>
    (match callee with
     | .MemberExpression lm obj prop comp =>
       let methodName := propName prop
       let lifetime' :=
         if methodName == some "singleton" || methodName == some "scoped" ||
            methodName == some "transient"
         then methodName else lifetime
       if isAwilixAsX (.MemberExpression lm obj prop comp) then
         (asXKind (.MemberExpression lm obj prop comp), lifetime', args.head?)
       else
         analyzeRegLoop obj lifetime'
     | other =>
       -- the `else if (isAwilixAsX(...))` arm; unreachable for a
       -- non-member callee since `isAwilixAsX` requires one, then `break`
       if isAwilixAsX other then (asXKind other, lifetime, args.head?)
       else ("value", lifetime, none))
  | _, lifetime => ("value", lifetime, none)

/-- Result of `analyzeRegistration`. -/
structure RegInfo where
  kind : String
  lifetime : Option String
  symbolNode : Option JsNode
deriving Repr

/-- Translation of `analyzeRegistration` from `src/providers/definition.js`:
run the chain walk, then, if no symbol was found and the original node is
not a call expression, the original node itself becomes the symbol. -/
def analyzeRegistration (node : JsNode) : RegInfo :=
  match analyzeRegLoop node none with
  | (kind, lifetime, symbolNode) =>
    ⟨kind, lifetime,
      if symbolNode.isNone && !isCallExpr node then some node else symbolNode⟩

/-- One entry of `result.keys` produced by `indexFile`. -/
structure KeyInfo where
  key : String
  fileUri : String
  exportName : Option String
  range : Option Rng
  kind : String
  lifetime : Option String
deriving DecidableEq, Repr

/-- One entry of `result.resolves` produced by `indexFile` (a usage
Reference). -/
structure Resolve where
  uri : String
  range : Option Rng
  key : String
  type : String
deriving DecidableEq, Repr

/-- Result of `indexFile`. -/
structure FileIndex where
  keys : List KeyInfo
  resolves : List Resolve
deriving DecidableEq, Repr

/-- The key entries a single visited node contributes: the
`container.register({ ... })` part of the `CallExpression` visitor of
`indexFile`. -/
def registerVisitor (env : Env) (fileUri : String) (ast : JsNode)
    (importMap : List (String × ImportInfo)) (n : JsNode) : List KeyInfo :=
  match n with
  | .CallExpression _ callee args =>
    if isMemberCall callee "register" then
      match args with
      | obj :: _ =>
        (match obj with
         | .ObjectExpression _ props =>
           props.filterMap (fun prop =>
             match prop with
             | .ObjectProperty _ key value =>
               (match getPropName key with
                | some k =>
                  let regInfo := analyzeRegistration value
                  let origin :=
                    resolveSymbolOrigin env fileUri regInfo.symbolNode ast importMap
                  some ⟨k, origin.fileUri, origin.exportName,
                    (origin.range).orElse (fun _ => toRange key),
                    regInfo.kind, regInfo.lifetime⟩
                | none => none)
             | _ => none)
         | _ => [])
      | [] => []
    else []
  | _ => []

/-- The constructor-injection usages emitted for a parameter list: the
shared body of the `ClassMethod` and `FunctionDeclaration` visitors of
`indexFile` (first parameter an object pattern, one usage per
identifier-keyed property). -/
def firstParamInjections (fileUri : String) (params : List JsNode) : List Resolve :=
  match params with
  | p :: _ =>
    (match p with
     | .ObjectPattern _ props =>
       props.filterMap (fun prop =>
         match prop with
         | .ObjectProperty _ key _ =>
           (match key with
            | .Identifier lk name =>
              some ⟨fileUri, toRange (.Identifier lk name), name,
                "constructorInjection"⟩
            | _ => none)
         | _ => none)
     | _ => [])
  | [] => []

/-- The usage references a single visited node contributes: the
`container.resolve('key')` part of the `CallExpression` visitor, the
`MemberExpression` (cradle) visitor, and the `ClassMethod` /
`FunctionDeclaration` visitors of `indexFile`. -/
def usagesVisitor (fileUri : String) (n : JsNode) : List Resolve :=
  match n with
  | .CallExpression _ callee args =>
    if isMemberCall callee "resolve" then
      match args with
      | .StringLiteral l v :: _ =>
        [⟨fileUri, toRange (.StringLiteral l v), v, "resolveCall"⟩]
      | _ => []
    else []
  | .MemberExpression l obj prop comp =>
    if isCradleAccess (.MemberExpression l obj prop comp) then
      match prop with
      | .Identifier lp name =>
        [⟨fileUri, toRange (.Identifier lp name), name, "cradleMember"⟩]
      | _ => []
    else []
  | .ClassMethod _ methodKind params _ =>
    if methodKind = "constructor" then firstParamInjections fileUri params
    else []
  | .FunctionDeclaration _ params _ =>
    firstParamInjections fileUri params
  | _ => []

/-- The traversal body of `indexFile`, applied to an already parsed tree:
build the import map, then collect key registrations and usages from every
node (Babel `traverse` fires the visitors on each node in pre-order). -/
def indexAst (env : Env) (fileUri : String) (ast : JsNode) : FileIndex :=
  let importMap := buildImportMap ast (stripFileScheme fileUri)
  ⟨(allNodes ast).flatMap (registerVisitor env fileUri ast importMap),
   (allNodes ast).flatMap (usagesVisitor fileUri)⟩

/-- Translation of `indexFile` from `src/providers/definition.js`: parse
the text; a parse failure is caught and the file contributes the empty
result. -/
def indexFile (env : Env) (fileUri : String) (text : String) : FileIndex :=
  match env.parse text with
  | .error _ => ⟨[], []⟩
  | .ok ast => indexAst env fileUri ast

/-- The workspace index: `keys` is a JavaScript `Map` from key name to its
`KeyInfo`, `resolves` the appended list of usage references. -/
structure WsIndex where
  keys : List (String × KeyInfo)
  resolves : List Resolve
deriving DecidableEq, Repr

/-- The merge step of `buildIndex` for one file's results: every
registration is written with `Map.set` (overwriting an existing entry for
the same key), usages are appended. -/
def mergeFileIndex (idx : WsIndex) (fi : FileIndex) : WsIndex :=
  ⟨fi.keys.foldl (fun m ki => mapSet m ki.key ki) idx.keys,
   idx.resolves ++ fi.resolves⟩

/-- Per-file step of `buildIndex`: read the file (errors are caught and the
file is skipped), index it, merge. -/
def processFile (env : Env) (idx : WsIndex) (file : String) : WsIndex :=
  match env.readFile file with
  | .error _ => idx
  | .ok text => mergeFileIndex idx (indexFile env ("file://" ++ file) text)

/-- Per-folder step of `buildIndex`: enumerate files with the glob (errors
are caught and the folder contributes nothing), then process each file. -/
def processFolder (env : Env) (ignore : List String) (idx : WsIndex)
    (folder : String) : WsIndex :=
  match env.glob folder ignore with
  | .error _ => idx
  | .ok files => files.foldl (processFile env) idx

/-- The baseline ignore set of `buildIndex`. -/
def defaultIgnore : List String :=
  ["**/node_modules/**", "**/dist/**", "**/out/**", "**/.git/**",
   "**/data/**", "**/.vscode/**", "**/.idea/**"]

/-- Translation of `buildIndex` from `src/providers/definition.js`: an
empty folder list yields the empty index; otherwise every folder is
scanned and merged into one shared index. -/
def buildIndex (env : Env) (workspaceFolders : List String)
    (ignorePatterns : List String) : WsIndex :=
  if workspaceFolders.isEmpty then ⟨[], []⟩
  else
    workspaceFolders.foldl
      (processFolder env (defaultIgnore ++ ignorePatterns)) ⟨[], []⟩

/-- The per-file results `buildIndex` merges, in processing order: folders
in order, their globbed files in order, skipping files whose read fails.
(Specification-side view of the build's iteration.) -/
def processedFileIndexes (env : Env) (workspaceFolders : List String)
    (ignorePatterns : List String) : List FileIndex :=
  workspaceFolders.flatMap (fun folder =>
    match env.glob folder (defaultIgnore ++ ignorePatterns) with
    | .error _ => []
    | .ok files =>
      files.filterMap (fun file =>
        match env.readFile file with
        | .error _ => none
        | .ok text => some (indexFile env ("file://" ++ file) text)))

/-- All registrations emitted during a build, in merge order. -/
def allRegistrations (env : Env) (workspaceFolders : List String)
    (ignorePatterns : List String) : List KeyInfo :=
  (processedFileIndexes env workspaceFolders ignorePatterns).flatMap
    (fun fi => fi.keys)

/-- All usage references emitted during a build, in merge order. -/
def allUsages (env : Env) (workspaceFolders : List String)
    (ignorePatterns : List String) : List Resolve :=
  (processedFileIndexes env workspaceFolders ignorePatterns).flatMap
    (fun fi => fi.resolves)

/-- VS Code diagnostic severities. -/
inductive Severity where
  | Error
  | Warning
  | Information
  | Hint
deriving DecidableEq, Repr

/-- A VS Code diagnostic as built by the diagnostics runner. -/
structure Diagnostic where
  range : Rng
  message : String
  severity : Severity
  source : String
  code : String
deriving DecidableEq, Repr

/-- The published diagnostics: per-file-path lists, modelling a
`vscode.DiagnosticCollection`. -/
def DiagCollection : Type := List (String × List Diagnostic)

/-- The diagnostic the runner creates for an unregistered key. -/
def mkMissingDiag (range : Rng) (key : String) : Diagnostic :=
  ⟨range,
   "Awilix: key \"" ++ key ++ "\" is not registered in the container",
   Severity.Error, "awilix", "unregistered-key"⟩

/-- The file-system path the runner groups a reference under. -/
def refFsPath (r : Resolve) : String :=
  stripFileScheme r.uri

/-- The `for (const ref of index.resolves)` loop of `diagnosticsRunner`:
ensure the file has an entry in `byFile`, then, when the key is missing
from the index, append one error diagnostic at the reference's range.
Reading `ref.range.start` of a `null` range throws a `TypeError`, modelled
as `Except.error`. -/
def diagFold (keys : List (String × KeyInfo)) :
    List (String × List Diagnostic) → List Resolve →
    Except String (List (String × List Diagnostic))
  | byFile, [] => .ok byFile
  | byFile, ref :: rest =>
    let fsPath := refFsPath ref
    let byFile := if mapHas byFile fsPath then byFile else mapSet byFile fsPath []
    if mapHas keys ref.key then diagFold keys byFile rest
    else
      match ref.range with
      | none => .error "TypeError: Cannot read properties of null"
      | some rng =>
        diagFold keys
          (mapUpdate byFile fsPath (fun arr => arr ++ [mkMissingDiag rng ref.key]))
          rest

/-- Translation of `diagnosticsRunner` from the diagnostics module: build
`byFile` over all usage references, then clear the collection and set the
per-file lists. The previous collection contents are discarded by
`collection.clear()`. -/
def diagnosticsRunner (index : WsIndex) (_collection : DiagCollection) :
    Except String DiagCollection :=
  match diagFold index.keys [] index.resolves with
  | .error e => .error e
  | .ok byFile =>
    .ok (byFile.foldl (fun c pd => mapSet c pd.1 pd.2) ([] : DiagCollection))

/-- The diagnostics expected for one file path: one error per reference in
that file whose key is missing, in reference order, at the reference's
range. -/
def expectedDiags (keys : List (String × KeyInfo)) (refs : List Resolve)
    (fp : String) : List Diagnostic :=
  (refs.filter (fun r => refFsPath r == fp && !mapHas keys r.key)).map
    (fun r => mkMissingDiag (r.range.getD ⟨0, 0, 0, 0⟩) r.key)

/-- JavaScript `\s` (the whitespace class), restricted to the characters
that can occur in a single line of source text. -/
def jsWs (c : Char) : Bool :=
  c = ' ' || c = '\t' || c = '\n' || c = '\r' ||
  c = '\x0b' || c = '\x0c' || c = '\u00A0'

/-- JavaScript `\w` (word characters). -/
def jsWordChar (c : Char) : Bool :=
  c.isAlphanum || c = '_'

/-- A single or double quote. -/
def isQuote (c : Char) : Bool :=
  c = '\'' || c = '"'

/-- Matching of `/\.resolve\s*\(\s*(['"])([^'"]*?)$/` against the text
before the cursor. A match exists exactly when, reading backwards, the
text ends with `.resolve`, optional whitespace, `(`, optional whitespace, a
quote, and quote-free text to the end; the captures are the quote character
(group 1) and the quote-free tail (group 2). -/
def matchResolveBefore (textBefore : String) : Option (Char × String) :=
  let rev := textBefore.data.reverse
  let keyRev := rev.takeWhile (fun c => !isQuote c)
  match rev.dropWhile (fun c => !isQuote c) with
  | [] => none
  | q :: rest =>
    let afterParen := rest.dropWhile jsWs
    match afterParen with
    | '(' :: r2 =>
      let beforeParen := r2.dropWhile jsWs
      if (".resolve".data.reverse).isPrefixOf beforeParen then
        some (q, ⟨keyRev.reverse⟩)
      else none
    | _ => none

/-- JavaScript `String.prototype.indexOf` for a single character. -/
def jsIndexOfChar (s : String) (c : Char) : Int :=
  match s.data.findIdx? (fun x => x = c) with
  | some i => (i : Int)
  | none => -1

/-- JavaScript `String.prototype.lastIndexOf` for a single character. -/
def jsLastIndexOfChar (s : String) (c : Char) : Int :=
  match s.data.reverse.findIdx? (fun x => x = c) with
  | some i => ((s.data.length - 1 - i : Nat) : Int)
  | none => -1

/-- All remainders of `l` after consuming zero or more whitespace
characters (the possible continuations of `\s*`). -/
def wsDrops : List Char → List (List Char)
  | [] => [[]]
  | c :: rest =>
    (c :: rest) :: (if jsWs c then wsDrops rest else [])

/-- All remainders after consuming one or more whitespace characters
(`\s+`). -/
def wsDrops1 : List Char → List (List Char)
  | [] => []
  | c :: rest => if jsWs c then wsDrops rest else []

/-- All remainders after consuming one or more word characters (`\w+`). -/
def wordDrops1 : List Char → List (List Char)
  | [] => []
  | c :: rest => if jsWordChar c then rest :: wordDrops1 rest else []

/-- Consuming a literal string. -/
def litDrop (lit : String) (l : List Char) : List (List Char) :=
  if lit.data.isPrefixOf l then [l.drop lit.length] else []

/-- Sequencing of nondeterministic consumers. -/
def nbind (xs : List (List Char)) (f : List Char → List (List Char)) :
    List (List Char) :=
  xs.flatMap f

/-- An optional consumer (`(?:...)?`). -/
def nopt (f : List Char → List (List Char)) (l : List Char) : List (List Char) :=
  l :: f l

/-- The common tail `\s*\{[^}]*$` of the destructuring patterns: optional
whitespace, an opening brace, then no closing brace up to the end of the
line. -/
def braceTailMatches (l : List Char) : Bool :=
  (nbind (wsDrops l) (litDrop "\x7b")).any (fun rest => rest.all (fun c => c ≠ '\x7d'))

/-- Matching of `/constructor\s*\(\s*\{[^}]*$/` (a test, so a match may
start at any position). -/
def testCtorDestructuring (s : String) : Bool :=
  s.data.tails.any (fun l =>
    (nbind (nbind (litDrop "constructor" l) wsDrops) (litDrop "(")).any
      braceTailMatches)

/-- The first alternative `function\s+\w+\s*\(` of the function
destructuring pattern. -/
def fnAltA (l : List Char) : List (List Char) :=
  nbind (nbind (nbind (litDrop "function" l) wsDrops1) wordDrops1)
    (fun r => nbind (wsDrops r) (litDrop "("))

/-- The second, line-anchored alternative
`^\s*(?:const|let|var)?\s*\w+\s*=\s*(?:function)?\s*\(` of the function
destructuring pattern. -/
def fnAltB (l : List Char) : List (List Char) :=
  nbind
    (nbind
      (nbind
        (nbind
          (nbind
            (nbind
              (nbind (wsDrops l)
                (nopt (fun r =>
                  litDrop "const" r ++ litDrop "let" r ++ litDrop "var" r)))
              wsDrops)
            wordDrops1)
          wsDrops)
        (litDrop "="))
      wsDrops)
    (fun r => nbind (nopt (litDrop "function") r) (fun r2 => nbind (wsDrops r2) (litDrop "(")))

/-- Matching of
`/(?:function\s+\w+\s*\(|^\s*(?:const|let|var)?\s*\w+\s*=\s*(?:function)?\s*\()\s*\{[^}]*$/`
(the function-destructuring test). -/
def testFnDestructuring (s : String) : Bool :=
  s.data.tails.any (fun l => (fnAltA l).any braceTailMatches) ||
  (fnAltB s.data).any braceTailMatches

/-- The cursor contexts returned by `detectAwilixContext`. -/
inductive AwilixContext where
  | inResolveString
  | afterCradleDot
  | inConstructorDestructuring
deriving DecidableEq, Repr

/-- The checks of `detectAwilixContext` that follow the resolve-string
check, in source order: cradle dot, constructor destructuring, function
destructuring. -/
def detectRest (textBefore : String) : Option AwilixContext :=
  if strEndsWith textBefore ".cradle." then some .afterCradleDot
  else if testCtorDestructuring textBefore then some .inConstructorDestructuring
  else if testFnDestructuring textBefore then some .inConstructorDestructuring
  else none

/-- Translation of `detectAwilixContext` from the completion module,
applied to one line and a cursor column. The resolve-string context is
returned when the unterminated-string pattern matches the text before the
cursor and the closing quote is either absent from the text after the
cursor (`indexOf === -1`) or at a position greater than zero. -/
def detectAwilixContext (line : String) (character : Nat) : Option AwilixContext :=
  let textBefore := strTake line character
  let textAfter := strDrop line character
  match matchResolveBefore textBefore with
  | some (q, _) =>
    let closingQuote := jsIndexOfChar textAfter q
    if closingQuote = -1 || closingQuote > 0 then some .inResolveString
    else detectRest textBefore
  | none => detectRest textBefore

/-- The replacement range computed by the completion provider for the
resolve-string context (`item.range` in `provideCompletionItems`): from
just after the opening quote to the closing quote, or to the cursor when
the string is unterminated. -/
def resolveReplaceRange (lineIdx : Nat) (line : String) (character : Nat) :
    Option Rng :=
  let textBefore := strTake line character
  let textAfter := strDrop line character
  match matchResolveBefore textBefore with
  | none => none
  | some (q, _) =>
    let startPos := jsLastIndexOfChar textBefore q + 1
    let endQuoteIndex := jsIndexOfChar textAfter q
    some ⟨lineIdx, startPos.toNat, lineIdx,
      (if endQuoteIndex ≥ 0 then (character : Int) + endQuoteIndex
       else (character : Int)).toNat⟩

/-- JavaScript's `a || b` on nullable values: the first operand when
present, else the second. -/
def optOr {α : Type} : Option α → Option α → Option α
  | some a, _ => some a
  | none, b => b

/-- Oracle environment for the `indexFile` totality witness: the parser
rejects every text. -/
def c10Env : Env :=
  ⟨fun _ => none, fun _ _ => none, fun _ => .error "SyntaxError",
   fun _ => .error "ENOENT", fun _ _ => .error "EACCES"⟩

/-- Oracle environment for the build-isolation witness: three files, the
middle one with unparseable text. -/
def c9Env : Env :=
  ⟨fun _ => none, fun _ _ => none,
   fun t => if t = "BAD" then .error "SyntaxError" else .ok (.Program none []),
   fun p =>
     if p = "/w/a.js" then .ok "A"
     else if p = "/w/bad.js" then .ok "BAD"
     else if p = "/w/c.js" then .ok "C"
     else .error "ENOENT",
   fun _ _ => .ok ["/w/a.js", "/w/bad.js", "/w/c.js"]⟩

/-- The concrete index for the C2 witness: key `logger` registered; one
resolved `logger` usage and one unresolved `db` usage in `/s.js`. -/
def c2Idx : WsIndex :=
  ⟨[("logger", ⟨"logger", "file:///c.js", none, none, "value", none⟩)],
   [⟨"file:///s.js", some ⟨4, 2, 4, 8⟩, "logger", "constructorInjection"⟩,
    ⟨"file:///s.js", some ⟨5, 2, 5, 4⟩, "db", "resolveCall"⟩]⟩

/-- A non-empty previously published collection, to be replaced. -/
def c2Prior : DiagCollection :=
  [("/old.js", [mkMissingDiag ⟨0, 0, 0, 0⟩ "x"])]

/-- The collection the runner publishes for `c2Idx`: one error for the
missing `db` key, none for the resolved `logger` usage, the stale entry
gone. -/
def c2Out : DiagCollection :=
  [("/s.js", [mkMissingDiag ⟨5, 2, 5, 4⟩ "db"])]

/-- Specification-side description of the usages C6 promises for one
parameter list: when the first parameter is an object-destructuring
pattern, one `constructorInjection` usage per identifier-keyed destructured
property, located at that property name's span. -/
def specFirstParamNames (fileUri : String) (params : List JsNode) : List Resolve :=
  match params with
  | .ObjectPattern _ props :: _ =>
    props.filterMap (fun prop =>
      match prop with
      | .ObjectProperty _ (.Identifier lk name) _ =>
        some ⟨fileUri, toRange (.Identifier lk name), name, "constructorInjection"⟩
      | _ => none)
  | _ => []

/-- Specification-side visitor for C6: class constructors and function
declarations produce the destructured-parameter usages; nothing else does.
-/
def specCtorInjVisitor (fileUri : String) (n : JsNode) : List Resolve :=
  match n with
  | .ClassMethod _ methodKind params _ =>
    if methodKind = "constructor" then specFirstParamNames fileUri params else []
  | .FunctionDeclaration _ params _ => specFirstParamNames fileUri params
  | _ => []

/-- All `constructorInjection` usages the specification promises for a
tree. -/
def specConstructorInjections (fileUri : String) (ast : JsNode) : List Resolve :=
  (allNodes ast).flatMap (specCtorInjVisitor fileUri)

/-- A file whose only content is `const f = function({a}) {}` — an
anonymous function expression whose first parameter destructures `a`. -/
def astFnExpr : JsNode :=
  .Program none [.VariableDeclaration none [.VariableDeclarator none
    (.Identifier none "f")
    (some (.FunctionExpression none
      [.ObjectPattern none [.ObjectProperty none
        (.Identifier (some ⟨1, 22, 1, 23⟩) "a") (.Identifier none "a")]]
      []))]]

/-- The same destructuring on a function declaration
(`function f({a}) {}`). -/
def astFnDecl : JsNode :=
  .Program none [.FunctionDeclaration none
    [.ObjectPattern none [.ObjectProperty none
      (.Identifier (some ⟨1, 22, 1, 23⟩) "a") (.Identifier none "a")]]
    []]

/-- Oracle file system for the C4 counterexample: `/a/foo` is a directory
holding an `index.js`, and `/a/foo.js` also exists as a file. -/
def c4Env : Env :=
  ⟨fun p =>
     if p = "/a/foo" then some .dir
     else if p = "/a/foo/index.js" then some .file
     else if p = "/a/foo.js" then some .file
     else none,
   fun _ _ => none, fun _ => .error "", fun _ => .error "",
   fun _ _ => .error ""⟩

/-- Oracle file system for the C4 witness: only `/a/foo.js` exists. -/
def c4EnvW : Env :=
  ⟨fun p => if p = "/a/foo.js" then some .file else none,
   fun _ _ => none, fun _ => .error "", fun _ => .error "",
   fun _ _ => .error ""⟩

/-- One link of a trailing method-call chain: the member property node and
the call's argument list. `wrapChain [l1, ..., ln] core` is the expression
`core.pn(an)....p1(a1)` — the head link is the outermost call. -/
structure ChainLink where
  prop : JsNode
  args : List JsNode

/-- Wrap an expression in a chain of trailing member calls. -/
def wrapChain : List ChainLink → JsNode → JsNode
  | [], core => core
  | l :: ls, core =>
    .CallExpression none
      (.MemberExpression none (wrapChain ls core) l.prop false) l.args

/-- Whether a member property selects a lifetime
(`singleton`/`scoped`/`transient`), exactly the condition tested by the
chain walk. -/
def isLifetimeProp (p : JsNode) : Bool :=
  propName p == some "singleton" || propName p == some "scoped" ||
  propName p == some "transient"

/-- Whether a member property selects a binding kind
(`asClass`/`asFunction`/`asValue`). -/
def isAsXProp (p : JsNode) : Bool :=
  propName p == some "asClass" || propName p == some "asFunction" ||
  propName p == some "asValue"

/-- Whether a node stops the chain walk without an `asX` callee: it is
either not a call expression at all, or a call whose callee is not a
member expression (a plain call such as `makeThing()`). -/
def isChainBreak (core : JsNode) : Bool :=
  match core with
  | .CallExpression _ callee _ =>
    (match callee with
     | .MemberExpression _ _ _ _ => false
     | _ => true)
  | _ => true

/-- The plain call `makeThing()`: a call chain with no binding-kind
selector. -/
def plainCallNode : JsNode :=
  .CallExpression none (.Identifier none "makeThing") []

theorem mapGet_mapSet_self {α : Type} (m : List (String × α)) (k : String) (v : α) :
    mapGet (mapSet m k v) k = some v := by
  induction m with
  | nil => simp [mapSet, mapGet]
  | cons hd tl ih =>
    obtain ⟨k', v'⟩ := hd
    by_cases h : k' = k
    · subst h
      simp [mapSet, mapGet]
    · have hb : (k' == k) = false := by simp [h]
      simp [mapSet, mapGet, hb, ih]

theorem mapGet_mapSet_ne {α : Type} (m : List (String × α)) (k k' : String) (v : α)
    (h : k' ≠ k) : mapGet (mapSet m k' v) k = mapGet m k := by
  induction m with
  | nil =>
    have hb : (k' == k) = false := by simp [h]
    simp [mapSet, mapGet, hb]
  | cons hd tl ih =>
    obtain ⟨k0, v0⟩ := hd
    by_cases h0 : k0 = k'
    · subst h0
      have hb : (k0 == k) = false := by simp [h]
      simp [mapSet, mapGet, hb, h]
    · have hb0 : (k0 == k') = false := by simp [h0]
      by_cases h1 : k0 = k
      · subst h1
        simp [mapSet, mapGet, hb0]
      · have hb1 : (k0 == k) = false := by simp [h1]
        simp [mapSet, mapGet, hb0, hb1, ih]

theorem mem_keys_mapSet {α : Type} (m : List (String × α)) (k a : String) (v : α) :
    a ∈ (mapSet m k v).map Prod.fst ↔ a ∈ m.map Prod.fst ∨ a = k := by
  induction m with
  | nil => simp [mapSet]
  | cons hd tl ih =>
    obtain ⟨k0, v0⟩ := hd
    by_cases h0 : k0 = k
    · subst h0
      simp only [mapSet, beq_self_eq_true, if_true, List.map_cons, List.mem_cons]
      tauto
    · have hb : (k0 == k) = false := by simp [h0]
      simp only [mapSet, hb, Bool.false_eq_true, if_false, List.map_cons,
        List.mem_cons, ih]
      tauto

theorem nodup_keys_mapSet {α : Type} (m : List (String × α)) (k : String) (v : α)
    (h : (m.map Prod.fst).Nodup) : ((mapSet m k v).map Prod.fst).Nodup := by
  induction m with
  | nil => simp [mapSet]
  | cons hd tl ih =>
    obtain ⟨k0, v0⟩ := hd
    simp only [List.map_cons, List.nodup_cons] at h
    by_cases h0 : k0 = k
    · subst h0
      simp only [mapSet, beq_self_eq_true, if_true, List.map_cons, List.nodup_cons]
      exact h
    · have hb : (k0 == k) = false := by simp [h0]
      simp only [mapSet, hb, Bool.false_eq_true, if_false, List.map_cons,
        List.nodup_cons]
      refine ⟨?_, ih h.2⟩
      intro hmem
      rcases (mem_keys_mapSet tl k k0 v).mp hmem with h1 | h1
      · exact h.1 h1
      · exact h0 h1

theorem mapGet_mapUpdate_self {α : Type} (m : List (String × α)) (k : String) (f : α → α) :
    mapGet (mapUpdate m k f) k = (mapGet m k).map f := by
  induction m with
  | nil => simp [mapUpdate, mapGet]
  | cons hd tl ih =>
    obtain ⟨k0, v0⟩ := hd
    by_cases h0 : k0 = k
    · subst h0
      simp [mapUpdate, mapGet]
    · have hb : (k0 == k) = false := by simp [h0]
      simp [mapUpdate, mapGet, hb, ih]

theorem mapGet_mapUpdate_ne {α : Type} (m : List (String × α)) (k k' : String)
    (f : α → α) (h : k' ≠ k) : mapGet (mapUpdate m k' f) k = mapGet m k := by
  induction m with
  | nil => simp [mapUpdate, mapGet]
  | cons hd tl ih =>
    obtain ⟨k0, v0⟩ := hd
    by_cases h0 : k0 = k'
    · subst h0
      have hb : (k0 == k) = false := by simp [h]
      simp [mapUpdate, mapGet, hb]
    · have hb0 : (k0 == k') = false := by simp [h0]
      by_cases h1 : k0 = k
      · subst h1
        simp [mapUpdate, mapGet, hb0]
      · have hb1 : (k0 == k) = false := by simp [h1]
        simp [mapUpdate, mapGet, hb0, hb1, ih]

theorem keys_mapUpdate {α : Type} (m : List (String × α)) (k : String) (f : α → α) :
    (mapUpdate m k f).map Prod.fst = m.map Prod.fst := by
  induction m with
  | nil => simp [mapUpdate]
  | cons hd tl ih =>
    obtain ⟨k0, v0⟩ := hd
    by_cases h0 : (k0 == k) = true
    · simp [mapUpdate, h0]
    · simp only [Bool.not_eq_true] at h0
      simp [mapUpdate, h0, ih]

theorem mapSet_of_not_has {α : Type} (m : List (String × α)) (k : String) (v : α)
    (h : mapHas m k = false) : mapSet m k v = m ++ [(k, v)] := by
  induction m with
  | nil => simp [mapSet]
  | cons hd tl ih =>
    obtain ⟨k0, v0⟩ := hd
    simp only [mapHas, mapGet] at h
    by_cases h0 : k0 = k
    · subst h0
      simp [beq_self_eq_true] at h
    · have hb : (k0 == k) = false := by simp [h0]
      simp only [mapSet, hb, Bool.false_eq_true, if_false, List.cons_append,
        List.cons.injEq, true_and]
      apply ih
      simpa [mapHas, hb] using h

theorem optOr_none_right {α : Type} (x : Option α) : optOr x none = x := by
  cases x <;> rfl

theorem getLast?_cons_optOr {α : Type} :
    ∀ (l : List α) (a : α) (x : Option α),
      optOr (a :: l).getLast? x = optOr l.getLast? (some a) := by
  intro l
  induction l with
  | nil =>
    intro a x
    simp [List.getLast?, optOr]
  | cons b t ih =>
    intro a x
    rw [List.getLast?_cons_cons]
    rw [ih b x, ih b (some a)]

theorem foldl_mapSet_get (regs : List KeyInfo) (m : List (String × KeyInfo))
    (k : String) :
    mapGet (regs.foldl (fun m ki => mapSet m ki.key ki) m) k
      = optOr ((regs.filter (fun ki => ki.key == k)).getLast?) (mapGet m k) := by
  induction regs generalizing m with
  | nil => simp [optOr]
  | cons ki rest ih =>
    simp only [List.foldl_cons]
    rw [ih]
    by_cases h : ki.key = k
    · have hb : (ki.key == k) = true := by simp [h]
      have hget : mapGet (mapSet m ki.key ki) k = some ki := by
        rw [h]
        exact mapGet_mapSet_self m k ki
      rw [hget]
      simp only [List.filter_cons, hb, if_true]
      exact (getLast?_cons_optOr _ ki (mapGet m k)).symm
    · have hb : (ki.key == k) = false := by simp [h]
      rw [mapGet_mapSet_ne m k ki.key ki h]
      simp only [List.filter_cons, hb, Bool.false_eq_true, if_false]

theorem foldl_mapSet_nodup (regs : List KeyInfo) (m : List (String × KeyInfo))
    (h : (m.map Prod.fst).Nodup) :
    (((regs.foldl (fun m ki => mapSet m ki.key ki) m).map Prod.fst)).Nodup := by
  induction regs generalizing m with
  | nil => exact h
  | cons ki rest ih =>
    simp only [List.foldl_cons]
    exact ih _ (nodup_keys_mapSet m ki.key ki h)

theorem foldl_merge_resolves (fis : List FileIndex) (e : WsIndex) :
    (fis.foldl mergeFileIndex e).resolves
      = e.resolves ++ fis.flatMap (fun fi => fi.resolves) := by
  induction fis generalizing e with
  | nil => simp
  | cons fi rest ih =>
    simp only [List.foldl_cons, List.flatMap_cons]
    rw [ih]
    simp [mergeFileIndex, List.append_assoc]

theorem foldl_merge_keys (fis : List FileIndex) (e : WsIndex) :
    (fis.foldl mergeFileIndex e).keys
      = (fis.flatMap (fun fi => fi.keys)).foldl
          (fun m ki => mapSet m ki.key ki) e.keys := by
  induction fis generalizing e with
  | nil => simp
  | cons fi rest ih =>
    simp only [List.foldl_cons, List.flatMap_cons]
    rw [ih]
    simp [mergeFileIndex, List.foldl_append]

theorem foldl_processFile (env : Env) (files : List String) (idx : WsIndex) :
    files.foldl (processFile env) idx
      = (files.filterMap (fun file =>
          match env.readFile file with
          | .error _ => none
          | .ok text => some (indexFile env ("file://" ++ file) text))).foldl
            mergeFileIndex idx := by
  induction files generalizing idx with
  | nil => simp
  | cons f rest ih =>
    simp only [List.foldl_cons, List.filterMap_cons]
    cases hf : env.readFile f with
    | error e => simp only [processFile, hf]; exact ih idx
    | ok text =>
      simp only [processFile, hf, List.foldl_cons]
      exact ih _

theorem foldl_processFolder (env : Env) (ign : List String)
    (folders : List String) (idx : WsIndex) :
    folders.foldl (processFolder env ign) idx
      = (folders.flatMap (fun folder =>
          match env.glob folder ign with
          | .error _ => []
          | .ok files =>
            files.filterMap (fun file =>
              match env.readFile file with
              | .error _ => none
              | .ok text => some (indexFile env ("file://" ++ file) text)))).foldl
            mergeFileIndex idx := by
  induction folders generalizing idx with
  | nil => simp
  | cons folder rest ih =>
    simp only [List.foldl_cons, List.flatMap_cons]
    cases hg : env.glob folder ign with
    | error e =>
      simp only [processFolder, hg]
      rw [ih, List.nil_append]
    | ok files =>
      simp only [processFolder, hg]
      rw [List.foldl_append, ih, foldl_processFile]

theorem buildIndex_eq_foldl (env : Env) (folders ignorePatterns : List String) :
    buildIndex env folders ignorePatterns
      = (processedFileIndexes env folders ignorePatterns).foldl
          mergeFileIndex ⟨[], []⟩ := by
  by_cases h : folders.isEmpty
  · have : folders = [] := by
      cases folders with
      | nil => rfl
      | cons a l => simp [List.isEmpty] at h
    subst this
    simp [buildIndex, processedFileIndexes]
  · simp only [buildIndex, h, Bool.false_eq_true, if_false]
    exact foldl_processFolder env _ folders _

/-- C1. For every workspace build, the key map holds exactly one entry per
key name; the entry stored for a key is the `KeyInfo` of the registration
merged last among all registrations with that key (earlier ones are
discarded); and the build's references are exactly the concatenation of
every emitted usage, in merge order — appended unconditionally and never
deduplicated. -/
theorem buildIndex_merge_semantics (env : Env)
    (folders ignorePatterns : List String) :
    ((buildIndex env folders ignorePatterns).keys.map Prod.fst).Nodup ∧
    (∀ k : String,
      mapGet (buildIndex env folders ignorePatterns).keys k
        = ((allRegistrations env folders ignorePatterns).filter
            (fun ki => ki.key == k)).getLast?) ∧
    (buildIndex env folders ignorePatterns).resolves
      = allUsages env folders ignorePatterns := by
  rw [buildIndex_eq_foldl]
  refine ⟨?_, ?_, ?_⟩
  · rw [foldl_merge_keys]
    exact foldl_mapSet_nodup _ _ (by simp)
  · intro k
    rw [foldl_merge_keys]
    rw [foldl_mapSet_get]
    show optOr _ (mapGet [] k) = _
    rw [show mapGet ([] : List (String × KeyInfo)) k = none from rfl]
    rw [optOr_none_right]
    rfl
  · rw [foldl_merge_resolves]
    rfl

theorem mergeFileIndex_empty (idx : WsIndex) :
    mergeFileIndex idx ⟨[], []⟩ = idx := by
  simp [mergeFileIndex]

/-- C9. No failure while processing one file aborts the build: a file
whose text fails to parse yields the empty per-file result, and the build
over a folder listing that file equals the build over the same listing
with that file removed (all other files still indexed); a build over an
empty set of enumeration roots returns the empty index. -/
theorem buildIndex_error_isolation (env : Env) (fld : String)
    (ign : List String) (pre post : List String) (f text e : String)
    (hg : env.glob fld (defaultIgnore ++ ign) = .ok (pre ++ f :: post))
    (hr : env.readFile f = .ok text)
    (hp : env.parse text = .error e) :
    indexFile env ("file://" ++ f) text = ⟨[], []⟩ ∧
    buildIndex env [fld] ign
      = buildIndex
          ⟨env.fs, env.hostResolve, env.parse, env.readFile,
           fun _ _ => .ok (pre ++ post)⟩ [fld] ign ∧
    (∀ (env2 : Env) (ign2 : List String), buildIndex env2 [] ign2 = ⟨[], []⟩) := by
  have hempty : indexFile env ("file://" ++ f) text = ⟨[], []⟩ := by
    simp [indexFile, hp]
  refine ⟨hempty, ?_, ?_⟩
  · have hpf :
        processFile
          ⟨env.fs, env.hostResolve, env.parse, env.readFile,
           fun _ _ => .ok (pre ++ post)⟩
          = processFile env := rfl
    simp only [buildIndex, List.isEmpty, Bool.false_eq_true, if_false,
      List.foldl_cons, List.foldl_nil, processFolder, hg, hpf]
    rw [List.foldl_append, List.foldl_append, List.foldl_cons]
    have hstep :
        processFile env (List.foldl (processFile env) ⟨[], []⟩ pre) f
          = List.foldl (processFile env) ⟨[], []⟩ pre := by
      simp [processFile, hr, hempty, mergeFileIndex_empty]
    rw [hstep]
  · intro env2 ign2
    simp [buildIndex]

/-- C10. The per-file indexer is total: it always returns a record with a
`keys` list and a `resolves` list, and on any text the parser rejects the
result is the empty record (the caught-parse-error path). -/
theorem indexFile_total (env : Env) (fileUri text : String) :
    (∃ keys resolves, indexFile env fileUri text = ⟨keys, resolves⟩) ∧
    (∀ e, env.parse text = .error e → indexFile env fileUri text = ⟨[], []⟩) := by
  constructor
  · exact ⟨(indexFile env fileUri text).keys,
      (indexFile env fileUri text).resolves, rfl⟩
  · intro e he
    simp [indexFile, he]

/-- Witness for C10: a file whose text does not parse still yields a
result, namely the empty one. -/
theorem indexFile_total_witness :
    indexFile c10Env "file:///broken.js" "const (" = ⟨[], []⟩ := by
  exact (indexFile_total c10Env "file:///broken.js" "const (").2 "SyntaxError" rfl

/-- C7. The cursor-context classifier on the four pinned fixtures, cursor
at end of line: `container.resolve('use` is the resolve-string context and
the completion replacement span covers the typed key fragment `use` (characters
19–22 of line 0); `x.cradle.` is the cradle-dot context;
`constructor({a, b` is the destructuring context; `const x = 5` is no
context. -/
theorem detectAwilixContext_fixtures :
    detectAwilixContext "container.resolve('use" 22
        = some AwilixContext.inResolveString ∧
    resolveReplaceRange 0 "container.resolve('use" 22 = some ⟨0, 19, 0, 22⟩ ∧
    detectAwilixContext "x.cradle." 9 = some AwilixContext.afterCradleDot ∧
    detectAwilixContext "constructor(\x7ba, b" 17
        = some AwilixContext.inConstructorDestructuring ∧
    detectAwilixContext "const x = 5" 11 = none := by
  refine ⟨rfl, rfl, rfl, rfl, rfl⟩

/-- C8. Evaluation at the failing input: on the line `x.resolve('abcd')`
with the cursor at character 13, the text after the cursor is `cd')` and
contains the matching closing quote (the string literal is already
closed), yet the classifier still returns the resolve-string context — the
code suppresses it only when the closing quote sits immediately at the
cursor (`indexOf === 0`), contradicting the claim (and the code's own
comment) that a closed string never yields the resolve-string context. -/
theorem detectAwilixContext_closed_string_bug :
    (strDrop "x.resolve('abcd')" 13).data.contains '\'' = true ∧
    detectAwilixContext "x.resolve('abcd')" 13
        = some AwilixContext.inResolveString := by
  refine ⟨rfl, rfl⟩

theorem mapGet_append {α : Type} (a b : List (String × α)) (k : String) :
    mapGet (a ++ b) k = optOr (mapGet a k) (mapGet b k) := by
  induction a with
  | nil => rfl
  | cons hd tl ih =>
    obtain ⟨k0, v0⟩ := hd
    by_cases h0 : (k0 == k) = true
    · simp [mapGet, h0, optOr]
    · simp only [Bool.not_eq_true] at h0
      simp [mapGet, h0, ih]

theorem foldl_mapSet_rebuild {α : Type} :
    ∀ (m acc : List (String × α)),
      (m.map Prod.fst).Nodup →
      (∀ k ∈ m.map Prod.fst, mapHas acc k = false) →
      m.foldl (fun c pd => mapSet c pd.1 pd.2) acc = acc ++ m := by
  intro m
  induction m with
  | nil => intro acc _ _; simp
  | cons hd rest ih =>
    obtain ⟨k, v⟩ := hd
    intro acc hnd hdisj
    simp only [List.map_cons, List.nodup_cons] at hnd
    have hk : mapHas acc k = false := hdisj k (by simp)
    simp only [List.foldl_cons]
    rw [mapSet_of_not_has acc k v hk]
    rw [ih (acc ++ [(k, v)]) hnd.2 ?_]
    · simp
    · intro k' hk'
      have hne : k' ≠ k := fun he => hnd.1 (he ▸ hk')
      have h1 : mapHas acc k' = false := hdisj k' (by simp [hk'])
      simp only [mapHas, mapGet_append]
      simp only [mapHas] at h1
      cases hg : mapGet acc k' with
      | some ds => rw [hg] at h1; simp at h1
      | none =>
        have hne' : ¬k = k' := fun he => hne he.symm
        have hb : (k == k') = false := by simp [hne']
        simp [optOr, mapGet, hb]

theorem expectedDiags_cons (keys : List (String × KeyInfo)) (ref : Resolve)
    (rest : List Resolve) (fp : String) :
    expectedDiags keys (ref :: rest) fp
      = (if refFsPath ref == fp && !mapHas keys ref.key
         then [mkMissingDiag (ref.range.getD ⟨0, 0, 0, 0⟩) ref.key] else [])
        ++ expectedDiags keys rest fp := by
  simp only [expectedDiags, List.filter_cons]
  split
  · simp
  · simp

theorem diagFold_cons_present (keys : List (String × KeyInfo))
    (acc : List (String × List Diagnostic)) (ref : Resolve)
    (rest : List Resolve) (hk : mapHas keys ref.key = true) :
    diagFold keys acc (ref :: rest)
      = diagFold keys
          (if mapHas acc (refFsPath ref) then acc
           else mapSet acc (refFsPath ref) []) rest := by
  simp only [diagFold, hk, if_true]

theorem diagFold_cons_missing (keys : List (String × KeyInfo))
    (acc : List (String × List Diagnostic)) (ref : Resolve)
    (rest : List Resolve) (rng : Rng) (hk : mapHas keys ref.key = false)
    (hr : ref.range = some rng) :
    diagFold keys acc (ref :: rest)
      = diagFold keys
          (mapUpdate
            (if mapHas acc (refFsPath ref) then acc
             else mapSet acc (refFsPath ref) []) (refFsPath ref)
            (fun arr => arr ++ [mkMissingDiag rng ref.key])) rest := by
  simp only [diagFold, hk, hr, Bool.false_eq_true, if_false]

theorem diagFold_spec (keys : List (String × KeyInfo)) :
    ∀ (refs : List Resolve) (acc : List (String × List Diagnostic)),
      (∀ r ∈ refs, mapHas keys r.key = false → r.range.isSome = true) →
      ∃ out, diagFold keys acc refs = .ok out ∧
        ((acc.map Prod.fst).Nodup → (out.map Prod.fst).Nodup) ∧
        (∀ fp, mapGet out fp =
          if mapHas acc fp || refs.any (fun r => refFsPath r == fp) then
            some ((mapGet acc fp).getD [] ++ expectedDiags keys refs fp)
          else none) := by
  intro refs
  induction refs with
  | nil =>
    intro acc _
    refine ⟨acc, rfl, fun hn => hn, ?_⟩
    intro fp
    cases hg : mapGet acc fp with
    | none =>
      have hh : mapHas acc fp = false := by simp [mapHas, hg]
      simp [hh, hg]
    | some ds =>
      have hh : mapHas acc fp = true := by simp [mapHas, hg]
      simp [hh, hg, expectedDiags]
  | cons ref rest ih =>
    intro acc h
    have hrest : ∀ r ∈ rest, mapHas keys r.key = false → r.range.isSome = true :=
      fun r hr => h r (List.mem_cons_of_mem _ hr)
    set acc1 :=
      (if mapHas acc (refFsPath ref) then acc
       else mapSet acc (refFsPath ref) []) with hacc1def
    have hacc1get :
        mapGet acc1 (refFsPath ref)
          = some ((mapGet acc (refFsPath ref)).getD []) := by
      rw [hacc1def]
      cases hh : mapHas acc (refFsPath ref) with
      | true =>
        simp only [if_true]
        simp only [mapHas] at hh
        cases hg : mapGet acc (refFsPath ref) with
        | none => rw [hg] at hh; simp at hh
        | some ds => simp [hg]
      | false =>
        simp only [Bool.false_eq_true, if_false]
        rw [mapGet_mapSet_self]
        simp only [mapHas] at hh
        cases hg : mapGet acc (refFsPath ref) with
        | none => simp
        | some ds => rw [hg] at hh; simp at hh
    have hacc1ne : ∀ fp, fp ≠ refFsPath ref → mapGet acc1 fp = mapGet acc fp := by
      intro fp hne
      rw [hacc1def]
      cases hh : mapHas acc (refFsPath ref) with
      | true => simp
      | false =>
        simp only [Bool.false_eq_true, if_false]
        exact mapGet_mapSet_ne acc fp (refFsPath ref) [] (fun he => hne he.symm)
    have hacc1nodup :
        (acc.map Prod.fst).Nodup → (acc1.map Prod.fst).Nodup := by
      intro hn
      rw [hacc1def]
      cases mapHas acc (refFsPath ref) with
      | true => simpa using hn
      | false =>
        simp only [Bool.false_eq_true, if_false]
        exact nodup_keys_mapSet acc (refFsPath ref) [] hn
    cases hk : mapHas keys ref.key with
    | true =>
      obtain ⟨out, hrun, hnd, hpt⟩ := ih acc1 hrest
      refine ⟨out, ?_, ?_, ?_⟩
      · rw [diagFold_cons_present keys acc ref rest hk, ← hacc1def]
        exact hrun
      · intro hn
        exact hnd (hacc1nodup hn)
      · intro fp
        rw [hpt fp]
        have hexp : expectedDiags keys (ref :: rest) fp
            = expectedDiags keys rest fp := by
          rw [expectedDiags_cons]
          simp [hk]
        rw [hexp]
        by_cases hfp : fp = refFsPath ref
        · subst hfp
          have h1 : mapHas acc1 (refFsPath ref) = true := by
            simp [mapHas, hacc1get]
          simp only [h1, Bool.true_or, if_true, List.any_cons,
            beq_self_eq_true, Bool.true_or, Bool.or_true, if_true]
          rw [hacc1get]
          rfl
        · have hfp' : ¬refFsPath ref = fp := fun he => hfp he.symm
          have h2 : (refFsPath ref == fp) = false := by simp [hfp']
          have h3 : mapHas acc1 fp = mapHas acc fp := by
            simp [mapHas, hacc1ne fp hfp]
          rw [hacc1ne fp hfp]
          simp [h3, h2, List.any_cons]
    | false =>
      have hrng : ref.range.isSome = true := h ref (List.mem_cons_self _ _) hk
      obtain ⟨rng, hr⟩ : ∃ rng, ref.range = some rng := by
        cases hrr : ref.range with
        | none => rw [hrr] at hrng; simp at hrng
        | some rng => exact ⟨rng, rfl⟩
      set acc2 :=
        mapUpdate acc1 (refFsPath ref)
          (fun arr => arr ++ [mkMissingDiag rng ref.key]) with hacc2def
      have hacc2get :
          mapGet acc2 (refFsPath ref)
            = some ((mapGet acc (refFsPath ref)).getD []
                ++ [mkMissingDiag rng ref.key]) := by
        rw [hacc2def, mapGet_mapUpdate_self, hacc1get]
        rfl
      have hacc2ne : ∀ fp, fp ≠ refFsPath ref → mapGet acc2 fp = mapGet acc fp := by
        intro fp hne
        rw [hacc2def, mapGet_mapUpdate_ne _ _ _ _ (fun he => hne he.symm)]
        exact hacc1ne fp hne
      obtain ⟨out, hrun, hnd, hpt⟩ := ih acc2 hrest
      refine ⟨out, ?_, ?_, ?_⟩
      · rw [diagFold_cons_missing keys acc ref rest rng hk hr, ← hacc1def,
          ← hacc2def]
        exact hrun
      · intro hn
        apply hnd
        rw [hacc2def]
        rw [show (mapUpdate acc1 (refFsPath ref)
              (fun arr => arr ++ [mkMissingDiag rng ref.key])).map Prod.fst
            = acc1.map Prod.fst from keys_mapUpdate _ _ _]
        exact hacc1nodup hn
      · intro fp
        rw [hpt fp]
        rw [expectedDiags_cons]
        by_cases hfp : fp = refFsPath ref
        · subst hfp
          have h1 : mapHas acc2 (refFsPath ref) = true := by
            simp [mapHas, hacc2get]
          simp only [h1, Bool.true_or, if_true, List.any_cons,
            beq_self_eq_true, Bool.true_or, Bool.or_true, if_true, hk,
            Bool.not_false, Bool.and_true, hr]
          rw [hacc2get]
          simp [List.append_assoc, Option.getD]
        · have hfp' : ¬refFsPath ref = fp := fun he => hfp he.symm
          have h2 : (refFsPath ref == fp) = false := by simp [hfp']
          have h3 : mapHas acc2 fp = mapHas acc fp := by
            simp [mapHas, hacc2ne fp hfp]
          rw [hacc2ne fp hfp]
          simp [h3, h2, List.any_cons]

/-- C2. For every index whose unresolved references carry ranges, the
diagnostics runner succeeds and publishes, for each file path that has at
least one reference, exactly the list of one error diagnostic per
reference with a missing key — at that reference's range, with the message
naming the missing key — and nothing for references whose key is present;
file paths without references get no entry. The published result is the
same whatever the previously published collection was (the evaluation
replaces it), so evaluating twice on the same index yields the same
grouped result. -/
theorem diagnosticsRunner_spec (index : WsIndex) (prior prior2 : DiagCollection)
    (h : ∀ r ∈ index.resolves,
      mapHas index.keys r.key = false → r.range.isSome = true) :
    ∃ out, diagnosticsRunner index prior = .ok out ∧
      diagnosticsRunner index prior2 = .ok out ∧
      (∀ fp, mapGet out fp =
        if index.resolves.any (fun r => refFsPath r == fp) then
          some (expectedDiags index.keys index.resolves fp)
        else none) := by
  obtain ⟨byFile, hrun, hnd, hpt⟩ := diagFold_spec index.keys index.resolves [] h
  have hnodup : (byFile.map Prod.fst).Nodup := hnd (by simp)
  have hdisj : ∀ k ∈ byFile.map Prod.fst,
      mapHas ([] : DiagCollection) k = false := by
    intro k _
    rfl
  have hpub :
      byFile.foldl (fun c pd => mapSet c pd.1 pd.2) ([] : DiagCollection)
        = byFile := by
    rw [foldl_mapSet_rebuild byFile ([] : DiagCollection) hnodup hdisj]
    rfl
  have hone : ∀ (c : DiagCollection), diagnosticsRunner index c = .ok byFile := by
    intro c
    unfold diagnosticsRunner
    rw [hrun]
    exact congrArg Except.ok hpub
  refine ⟨byFile, hone prior, hone prior2, ?_⟩
  intro fp
  have hthis := hpt fp
  have hhas : mapHas ([] : DiagCollection) fp = false := rfl
  rw [hhas] at hthis
  simpa [mapGet] using hthis

/-- Witness for C2 at a concrete index: the runner yields the same single
`db` diagnostic whether the prior collection was empty or not. -/
theorem diagnosticsRunner_spec_witness :
    diagnosticsRunner c2Idx c2Prior = .ok c2Out ∧
    diagnosticsRunner c2Idx [] = .ok c2Out := by
  obtain ⟨out, h1, h2, h3⟩ := diagnosticsRunner_spec c2Idx c2Prior []
    (by
      intro r hr hk
      rcases List.mem_cons.mp hr with rfl | hr2
      · rfl
      · rcases List.mem_singleton.mp hr2 with rfl
        rfl)
  have he : diagnosticsRunner c2Idx c2Prior = .ok c2Out := by rfl
  have hout : out = c2Out := Except.ok.inj (h1.symm.trans he)
  subst hout
  exact ⟨h1, h2⟩

theorem filter_firstParamInjections (fileUri : String) (params : List JsNode) :
    (firstParamInjections fileUri params).filter
        (fun r => r.type == "constructorInjection")
      = specFirstParamNames fileUri params := by
  cases params with
  | nil => rfl
  | cons p rest =>
    cases p with
    | ObjectPattern lo props =>
      show (props.filterMap _).filter _ = props.filterMap _
      induction props with
      | nil => rfl
      | cons prop props ih =>
        rw [List.filterMap_cons, List.filterMap_cons]
        cases prop with
        | ObjectProperty lp key value =>
          cases key with
          | Identifier lk name =>
            simp only [List.filter_cons]
            rw [ih]
            rfl
          | _ => exact ih
        | _ => exact ih
    | _ => rfl

/-- C6 (amended). The `constructorInjection` usages a file's indexing
emits are exactly those described by the specification-side definition:
for every class constructor and every function declaration whose first
parameter is an object-destructuring pattern, one usage per
identifier-keyed destructured property, each located at that property
name's span — and nothing else (in particular function expressions and
arrow functions, which the indexer does not visit, contribute none). -/
theorem indexAst_constructorInjections (env : Env) (fileUri : String)
    (ast : JsNode) :
    ((indexAst env fileUri ast).resolves).filter
        (fun r => r.type == "constructorInjection")
      = specConstructorInjections fileUri ast := by
  show ((allNodes ast).flatMap (usagesVisitor fileUri)).filter _ = _
  rw [List.filter_flatMap]
  apply List.flatMap_congr
  intro n _
  cases n with
  | CallExpression l callee args =>
    simp only [usagesVisitor, specCtorInjVisitor]
    split
    · split
      · simp [List.filter_cons]
      · rfl
    · rfl
  | MemberExpression l obj prop comp =>
    simp only [usagesVisitor, specCtorInjVisitor]
    split
    · split
      · simp [List.filter_cons]
      · rfl
    · rfl
  | ClassMethod l methodKind params body =>
    simp only [usagesVisitor, specCtorInjVisitor]
    split
    · exact filter_firstParamInjections fileUri params
    · rfl
  | FunctionDeclaration l params body =>
    exact filter_firstParamInjections fileUri params
  | _ => rfl

/-- Counterexample for C6: indexing the anonymous function expression file
emits no usage at all — not the one-per-destructured-name the claim
promises for every (named or anonymous) function — while the same
parameter on a function declaration does emit exactly one. -/
theorem indexAst_functionExpression_counterexample :
    (indexAst c10Env "file:///fe.js" astFnExpr).resolves = [] ∧
    (indexAst c10Env "file:///fe.js" astFnDecl).resolves
      = [⟨"file:///fe.js", some ⟨0, 22, 0, 23⟩, "a", "constructorInjection"⟩] := by
  refine ⟨rfl, rfl⟩

/-- C4 (amended). For a relative specifier the resolver tries, in this
order: the literal resolved path as a file; then, when the literal path
exists (as a directory), the `index.js` inside it; then the path with the
`.js` extension appended; absent when none of these exist. In particular
`./foo` from `/a/b.js` resolves to `/a/foo` itself when that is a file,
else to `/a/foo/index.js` when `/a/foo` exists and that index file exists,
else to `/a/foo.js` when that exists, else to nothing — the directory's
index file takes priority over the extension-appended path, not the other
way around. -/
theorem resolveModulePath_relative (env : Env) (modulePath fromFile : String)
    (h : strStartsWith modulePath "." = true) :
    resolveModulePath env modulePath fromFile
      = (let resolved := pathResolve (dirname fromFile) modulePath
         if isFileFS env.fs resolved then some resolved
         else if existsFS env.fs resolved &&
                 existsFS env.fs (pathJoin resolved "index.js") then
           some (pathJoin resolved "index.js")
         else if existsFS env.fs (resolved ++ ".js") then
           some (resolved ++ ".js")
         else none) := by
  have hfe : ∀ p, isFileFS env.fs p = true → existsFS env.fs p = true := by
    intro p hp
    simp only [isFileFS, beq_iff_eq] at hp
    simp [existsFS, hp]
  simp only [resolveModulePath, h, if_true]
  by_cases h1 : existsFS env.fs (pathResolve (dirname fromFile) modulePath)
  · simp only [h1, if_true]
    by_cases h2 : isFileFS env.fs (pathResolve (dirname fromFile) modulePath)
    · simp [h2]
    · simp only [Bool.not_eq_true] at h2
      simp only [h2, Bool.false_eq_true, if_false, h1, Bool.true_and]
  · simp only [Bool.not_eq_true] at h1
    have h2 : isFileFS env.fs (pathResolve (dirname fromFile) modulePath) = false := by
      cases hf : isFileFS env.fs (pathResolve (dirname fromFile) modulePath) with
      | false => rfl
      | true => rw [hfe _ hf] at h1; exact absurd h1 (by simp)
    simp [h1, h2]

/-- Counterexample for C4: `/a/foo.js` exists on disk, yet `./foo` from
`/a/b.js` resolves to `/a/foo/index.js`, not to `/a/foo.js` — the claimed
extension-before-index order does not hold. -/
theorem resolveModulePath_counterexample :
    isFileFS c4Env.fs "/a/foo.js" = true ∧
    resolveModulePath c4Env "./foo" "/a/b.js" = some "/a/foo/index.js" ∧
    resolveModulePath c4Env "./foo" "/a/b.js" ≠ some "/a/foo.js" := by
  have h2 : resolveModulePath c4Env "./foo" "/a/b.js" = some "/a/foo/index.js" := by
    rfl
  refine ⟨rfl, h2, ?_⟩
  rw [h2]
  simp

/-- Witness for C4's amended theorem: when `/a/foo` does not exist and
`/a/foo.js` does, `./foo` from `/a/b.js` resolves to `/a/foo.js`. -/
theorem resolveModulePath_relative_witness :
    resolveModulePath c4EnvW "./foo" "/a/b.js" = some "/a/foo.js" := by
  have h := resolveModulePath_relative c4EnvW "./foo" "/a/b.js" rfl
  exact h.trans (by rfl)

theorem isAwilixAsX_member (l : Option Loc) (o p : JsNode) (c : Bool) :
    isAwilixAsX (.MemberExpression l o p c) = isAsXProp p := by
  cases p <;> simp [isAwilixAsX, isAsXProp, propName]

theorem isLifetimeProp_elim (p : JsNode) (h : isLifetimeProp p = true) :
    ∃ lp n, p = .Identifier lp n ∧
      (n = "singleton" ∨ n = "scoped" ∨ n = "transient") := by
  cases p with
  | Identifier lp n =>
    refine ⟨lp, n, rfl, ?_⟩
    have h' := h
    simp only [isLifetimeProp, propName, Bool.or_eq_true, beq_iff_eq,
      Option.some.injEq] at h'
    tauto
  | _ => simp [isLifetimeProp, propName] at h

theorem analyzeRegistration_eq (node : JsNode) (k : String) (lt : Option String)
    (s : Option JsNode) (h : analyzeRegLoop node none = (k, lt, s)) :
    analyzeRegistration node
      = ⟨k, lt, if s.isNone && !isCallExpr node then some node else s⟩ := by
  unfold analyzeRegistration
  rw [h]

/-- Walking a chain of lifetime links records each lifetime name and
continues inward; the lifetime reaching the core is the innermost (last)
one, falling back to the incoming state when there are none. -/
theorem analyzeRegLoop_wrapChain :
    ∀ (ls : List ChainLink) (core : JsNode) (lt : Option String),
      (∀ l ∈ ls, isLifetimeProp l.prop = true) →
      analyzeRegLoop (wrapChain ls core) lt
        = analyzeRegLoop core
            (optOr ((ls.filterMap (fun l => propName l.prop)).getLast?) lt) := by
  intro ls
  induction ls with
  | nil => intro core lt _; rfl
  | cons l rest ih =>
    obtain ⟨p, largs⟩ := l
    intro core lt hl
    have hlp : isLifetimeProp p = true :=
      hl ⟨p, largs⟩ (List.mem_cons_self _ _)
    obtain ⟨lp, n, hp, hn⟩ := isLifetimeProp_elim p hlp
    subst hp
    have hstep :
        analyzeRegLoop
            (wrapChain (⟨JsNode.Identifier lp n, largs⟩ :: rest) core) lt
          = analyzeRegLoop (wrapChain rest core) (some n) := by
      rcases hn with rfl | rfl | rfl <;> rfl
    rw [hstep,
      ih core (some n) (fun l' h' => hl l' (List.mem_cons_of_mem _ h'))]
    congr 1
    have hfm :
        List.filterMap (fun l => propName l.prop)
            (⟨JsNode.Identifier lp n, largs⟩ :: rest)
          = n :: rest.filterMap (fun l => propName l.prop) := by
      simp [List.filterMap_cons, propName]
    rw [hfm]
    exact (getLast?_cons_optOr _ n lt).symm

/-- At an `asX` call the walk stops: the kind comes from the callee, the
lifetime state is unchanged (an `asX` name is not a lifetime name), and
the first argument becomes the symbol. -/
theorem analyzeRegLoop_asX (lc lm lp : Option Loc) (obj : JsNode) (comp : Bool)
    (xname : String) (args : List JsNode) (lt : Option String)
    (hx : xname = "asClass" ∨ xname = "asFunction" ∨ xname = "asValue") :
    analyzeRegLoop
        (.CallExpression lc
          (.MemberExpression lm obj (.Identifier lp xname) comp) args) lt
      = (asXKind (.MemberExpression lm obj (.Identifier lp xname) comp),
         lt, args.head?) := by
  rcases hx with rfl | rfl | rfl <;> rfl

/-- C3. Registration analysis of a chain of lifetime-selector calls around
a binding-kind call: the kind comes from the binding-kind callee
(`asClass ↦ class`, `asFunction ↦ function`, `asValue ↦ value`), the
recorded lifetime is the innermost lifetime selector (`none` when there is
none), and the bound symbol is that call's first argument, taken as is —
not unwrapped further. Instantiated at `lib.asClass(Foo).singleton()` by
the witness: kind `class`, lifetime `singleton`, bound symbol the
identifier `Foo`. -/
theorem analyzeRegistration_chain (ls : List ChainLink) (lc lm lp : Option Loc)
    (obj : JsNode) (comp : Bool) (xname : String) (arg : JsNode)
    (args' : List JsNode)
    (hl : ∀ l ∈ ls, isLifetimeProp l.prop = true)
    (hx : xname = "asClass" ∨ xname = "asFunction" ∨ xname = "asValue") :
    analyzeRegistration
        (wrapChain ls
          (.CallExpression lc
            (.MemberExpression lm obj (.Identifier lp xname) comp)
            (arg :: args')))
      = ⟨if xname = "asClass" then "class"
         else if xname = "asFunction" then "function" else "value",
         (ls.filterMap (fun l => propName l.prop)).getLast?,
         some arg⟩ := by
  have hloop := analyzeRegLoop_wrapChain ls
    (.CallExpression lc
      (.MemberExpression lm obj (.Identifier lp xname) comp)
      (arg :: args')) none hl
  rw [analyzeRegLoop_asX lc lm lp obj comp xname (arg :: args') _ hx] at hloop
  rw [analyzeRegistration_eq _ _ _ _ hloop]
  have hkind :
      asXKind (.MemberExpression lm obj (.Identifier lp xname) comp)
        = (if xname = "asClass" then "class"
           else if xname = "asFunction" then "function" else "value") := by
    rcases hx with rfl | rfl | rfl <;> rfl
  simp [hkind, optOr_none_right]

/-- Witness for C3: `lib.asClass(Foo).singleton()` analyses to kind
`class`, lifetime `singleton`, bound symbol the identifier `Foo`. -/
theorem analyzeRegistration_chain_witness :
    analyzeRegistration
        (.CallExpression none
          (.MemberExpression none
            (.CallExpression none
              (.MemberExpression none (.Identifier none "lib")
                (.Identifier none "asClass") false)
              [.Identifier none "Foo"])
            (.Identifier none "singleton") false)
          [])
      = ⟨"class", some "singleton", some (.Identifier none "Foo")⟩ := by
  have h := analyzeRegistration_chain
    [⟨.Identifier none "singleton", []⟩] none none none
    (.Identifier none "lib") false "asClass" (.Identifier none "Foo") []
    (by
      intro l hl
      simp only [List.mem_singleton] at hl
      subst hl
      rfl)
    (Or.inl rfl)
  simpa using h

theorem analyzeRegLoop_break (core : JsNode) (lt : Option String)
    (h : isChainBreak core = true) :
    analyzeRegLoop core lt = ("value", lt, none) := by
  cases core with
  | CallExpression l callee args =>
    cases callee with
    | MemberExpression lm o p c => simp [isChainBreak] at h
    | _ => rfl
  | _ => rfl

/-- Walking a chain whose links are all non-binding-kind selectors reaches
the core with some lifetime state but records no symbol along the way. -/
theorem analyzeRegLoop_wrapChain_no_asX :
    ∀ (ls : List ChainLink) (core : JsNode) (lt : Option String),
      (∀ l ∈ ls, isAsXProp l.prop = false) →
      ∃ lt', analyzeRegLoop (wrapChain ls core) lt = analyzeRegLoop core lt' := by
  intro ls
  induction ls with
  | nil => intro core lt _; exact ⟨lt, rfl⟩
  | cons l rest ih =>
    obtain ⟨p, largs⟩ := l
    intro core lt hl
    have hpl : isAsXProp p = false := hl ⟨p, largs⟩ (List.mem_cons_self _ _)
    have hred :
        analyzeRegLoop (wrapChain (⟨p, largs⟩ :: rest) core) lt
          = analyzeRegLoop (wrapChain rest core)
              (if propName p == some "singleton" ||
                  propName p == some "scoped" ||
                  propName p == some "transient"
               then propName p else lt) := by
      show analyzeRegLoop
          (.CallExpression none
            (.MemberExpression none (wrapChain rest core) p false) largs) lt
        = _
      simp only [analyzeRegLoop, isAwilixAsX_member, hpl, Bool.false_eq_true,
        if_false]
    rw [hred]
    exact ih core _ (fun l' h' => hl l' (List.mem_cons_of_mem _ h'))

/-- C5 (amended). For a call chain that contains no binding-kind selector
— trailing member calls around a core that is either a plain
(non-member-callee) call or not a call at all — registration analysis
yields kind `value` and records no bound symbol at all (`symbolNode` is
`null`); the original expression is not taken as the bound symbol. -/
theorem analyzeRegistration_no_asX (ls : List ChainLink) (core : JsNode)
    (hl : ∀ l ∈ ls, isAsXProp l.prop = false)
    (hcore : isChainBreak core = true)
    (hcall : ls ≠ [] ∨ isCallExpr core = true) :
    (analyzeRegistration (wrapChain ls core)).kind = "value" ∧
    (analyzeRegistration (wrapChain ls core)).symbolNode = none := by
  obtain ⟨lt', hloop⟩ := analyzeRegLoop_wrapChain_no_asX ls core none hl
  rw [analyzeRegLoop_break core lt' hcore] at hloop
  rw [analyzeRegistration_eq _ _ _ _ hloop]
  have hcallb : isCallExpr (wrapChain ls core) = true := by
    rcases hcall with h | h
    · cases ls with
      | nil => exact absurd rfl h
      | cons l rest => rfl
    · cases ls with
      | nil => exact h
      | cons l rest => rfl
  simp [hcallb]

/-- Counterexample for C5: for `makeThing()` the analysis yields kind
`value` but `symbolNode` is `null` — the original expression is not
recorded as the bound symbol, contrary to the claim. -/
theorem analyzeRegistration_plain_call_counterexample :
    (analyzeRegistration plainCallNode).kind = "value" ∧
    (analyzeRegistration plainCallNode).symbolNode = none ∧
    (analyzeRegistration plainCallNode).symbolNode ≠ some plainCallNode := by
  refine ⟨rfl, rfl, ?_⟩
  intro h
  have h2 : (none : Option JsNode) = some plainCallNode :=
    (rfl : (analyzeRegistration plainCallNode).symbolNode = none).symm.trans h
  exact Option.noConfusion h2

/-- Witness for C5's amended theorem, at the plain call `makeThing()`. -/
theorem analyzeRegistration_no_asX_witness :
    (analyzeRegistration plainCallNode).kind = "value" ∧
    (analyzeRegistration plainCallNode).symbolNode = none := by
  exact analyzeRegistration_no_asX [] plainCallNode
    (by intro l h; simp at h) rfl (Or.inr rfl)

/-- Witness for C9: the unparseable middle file contributes nothing, the
build equals the build over the other two files, and an empty root list
yields the empty index. -/
theorem buildIndex_error_isolation_witness :
    indexFile c9Env "file:///w/bad.js" "BAD" = ⟨[], []⟩ ∧
    buildIndex c9Env ["/w"] []
      = buildIndex
          ⟨c9Env.fs, c9Env.hostResolve, c9Env.parse, c9Env.readFile,
           fun _ _ => .ok ["/w/a.js", "/w/c.js"]⟩ ["/w"] [] ∧
    buildIndex c9Env [] [] = ⟨[], []⟩ := by
  obtain ⟨h1, h2, h3⟩ :=
    buildIndex_error_isolation c9Env "/w" [] ["/w/a.js"] ["/w/c.js"]
      "/w/bad.js" "BAD" "SyntaxError" rfl rfl rfl
  exact ⟨h1, h2, h3 c9Env []⟩

end AwilixHelper
